import Mathlib

/-!
Shallow embedding of the boltdb OAuth2 token store (`token.go`) and proofs
about it.

Modelling conventions:
* Byte strings (`[]byte`, Go strings) are `Bytes := List Nat`, compared with
  `bytes.Compare`'s byte-lexicographic order.
* A bolt bucket is a list of key/value pairs kept in ascending key order
  (bolt stores keys sorted and its cursors iterate in that order).
* Instants (`time.Time`) are nanoseconds since the Unix epoch (`Int`);
  durations (`time.Duration`) are nanoseconds (`Int`), as in Go.
* Since the code calls `time.Now()` several times (once at the top of
  `Create`, once inside each `createTtl` call), each such reading is an
  explicit parameter.
-/

namespace GoOauth2Boltdb

/-- Byte strings: Go `[]byte` values, one `Nat` per byte. -/
abbrev Bytes := List Nat

/-- Byte-lexicographic strict order, `bytes.Compare a b < 0`. -/
def bltB : Bytes → Bytes → Bool
  | [], [] => false
  | [], _ :: _ => true
  | _ :: _, [] => false
  | a :: as, b :: bs => if a < b then true else if a = b then bltB as bs else false

/-- Byte-lexicographic `bytes.Compare a b <= 0`. -/
def bleB (a b : Bytes) : Bool := !(bltB b a)

/-! ## Time formatting

`createTtl` stores `time.Now().Add(ttl).UTC().Format(time.RFC3339Nano)` as the
TTL-bucket key.  We model the instant as epoch nanoseconds and reproduce the
Go formatting: `RFC3339Nano` prints `YYYY-MM-DDTHH:MM:SS` followed by the
fractional seconds with trailing zeros stripped (omitted entirely when zero)
and a `Z` suffix for UTC. -/

/-- Decimal digits of `n` (ASCII codes), fuelled structurally; `fuel = 30`
covers every value a 64-bit-nanoseconds clock can produce. -/
def decDigits : Nat → Nat → Bytes
  | 0, _ => []
  | f + 1, n => if n < 10 then [48 + n] else decDigits f (n / 10) ++ [48 + n % 10]

/-- Decimal rendering of `n` left-padded with `'0'` to at least `w` digits,
like Go's `appendInt(n, w)`. -/
def padDigits (w n : Nat) : Bytes :=
  let ds := decDigits 30 n
  List.replicate (w - ds.length) 48 ++ ds

/-- Civil date (year, month, day) from days since 1970-01-01, the standard
era-based calendar conversion; behaviourally identical to Go's
`time.Time.Date` for UTC. -/
def civilFromDays (z : Int) : Int × Nat × Nat :=
  let z' := z + 719468
  let era := Int.ediv z' 146097
  let doe := (z' - era * 146097).toNat
  let yoe := (doe - doe / 1460 + doe / 36524 - doe / 146096) / 365
  let doy := doe - (365 * yoe + yoe / 4 - yoe / 100)
  let mp := (5 * doy + 2) / 153
  let d := doy - (153 * mp + 2) / 5 + 1
  let m := if mp < 10 then mp + 3 else mp - 9
  (era * 400 + yoe + (if m ≤ 2 then 1 else 0), m, d)

/-- Drop trailing `'0'` bytes, as Go's fraction formatting does. -/
def stripZeros (b : Bytes) : Bytes := (b.reverse.dropWhile (fun c => c == 48)).reverse

/-- Year field of the formatted timestamp (4 digits, sign first if negative). -/
def yearBytes (y : Int) : Bytes :=
  if y < 0 then 45 :: padDigits 4 y.natAbs else padDigits 4 y.toNat

/-- Go's `t.UTC().Format(time.RFC3339Nano)` on the instant `n` nanoseconds
since the Unix epoch. -/
def fmtRFC3339Nano (n : Int) : Bytes :=
  let sec := Int.ediv n 1000000000
  let nsec := (Int.emod n 1000000000).toNat
  let days := Int.ediv sec 86400
  let sod := (Int.emod sec 86400).toNat
  let ymd := civilFromDays days
  let frac := if nsec = 0 then [] else 46 :: stripZeros (padDigits 9 nsec)
  yearBytes ymd.1 ++ [45] ++ padDigits 2 ymd.2.1 ++ [45] ++ padDigits 2 ymd.2.2 ++
    [84] ++ padDigits 2 (sod / 3600) ++ [58] ++ padDigits 2 (sod % 3600 / 60) ++
    [58] ++ padDigits 2 (sod % 60) ++ frac ++ [90]

/-! ## Bolt buckets

A bucket is a key-sorted association list.  `bput`/`bget`/`bdel` model
`Bucket.Put`/`Get`/`Delete`; `bputE` adds bolt's error conditions
(`ErrKeyRequired`, `ErrKeyTooLarge`, `ErrValueTooLarge`). -/

/-- A bolt bucket: key/value pairs in ascending key order. -/
abbrev Bucket := List (Bytes × Bytes)

/-- Sorted insert-or-replace, preserving bolt's key order. -/
def bput : Bucket → Bytes → Bytes → Bucket
  | [], k, v => [(k, v)]
  | (k', v') :: rest, k, v =>
    if bltB k k' then (k, v) :: (k', v') :: rest
    else if k = k' then (k, v) :: rest
    else (k', v') :: bput rest k v

/-- Bucket lookup, `Bucket.Get` (returns `nil` for a missing key). -/
def bget : Bucket → Bytes → Option Bytes
  | [], _ => none
  | (k', v') :: rest, k => if k = k' then some v' else bget rest k

/-- Bucket deletion, `Bucket.Delete` (a no-op for a missing key). -/
def bdel : Bucket → Bytes → Bucket
  | [], _ => []
  | (k', v') :: rest, k => if k' = k then bdel rest k else (k', v') :: bdel rest k

/-- `Bucket.Put` including bolt's error cases: empty key, key longer than
`MaxKeySize = 32768`, value longer than `MaxValueSize = 2^31 - 2`. -/
def bputE (b : Bucket) (k v : Bytes) : Except String Bucket :=
  if k = [] then .error "key required"
  else if k.length > 32768 then .error "key too large"
  else if v.length > 2147483646 then .error "value too large"
  else .ok (bput b k v)

/-- Strict ascending key order of a bucket, decidably. -/
def bsorted : Bucket → Bool
  | [] => true
  | [_] => true
  | a :: b :: rest => bltB a.1 b.1 && bsorted (b :: rest)

/-- The two partitions of one token store: the primary bucket
(`ts.bucketName`) and the TTL bucket (`ts.bucketTtlName`). -/
structure DB where
  main : Bucket
  ttl : Bucket
deriving DecidableEq, Repr

/-! ## Token records and their serialization

`oauth2.TokenInfo` / `models.Token`: the fields `Create` reads, with times as
epoch nanoseconds and durations as nanoseconds.  The spec treats the JSON
payload encoding as an out-of-scope collaborator, so `serializeToken` below
is modelled from the spec: an injective field encoding with an exact decoder
standing in for `json.Marshal`/`json.Unmarshal` of `models.Token`. -/

/-- The token record (`models.Token`), restricted to the fields this store
reads or persists. -/
structure TokenInfo where
  clientID : Bytes
  userID : Bytes
  code : Bytes
  access : Bytes
  refresh : Bytes
  codeCreateAt : Int
  codeExpiresIn : Int
  accessCreateAt : Int
  accessExpiresIn : Int
  refreshCreateAt : Int
  refreshExpiresIn : Int
deriving DecidableEq, Repr

/-- Unary length marker used by the model encoding. -/
def natEnc (n : Nat) : Bytes := List.replicate n 1 ++ [0]

/-- Length-prefixed byte-string field. -/
def bEnc (b : Bytes) : Bytes := natEnc b.length ++ b

/-- Little-endian base-256 digits of `n`, fuelled structurally; any fuel
above `log 256 n` is enough. -/
def digitsF : Nat → Nat → Bytes
  | 0, _ => []
  | f + 1, n => if n < 256 then [n] else n % 256 :: digitsF f (n / 256)

/-- Evaluate little-endian base-256 digits back to a number. -/
def unDigits : Bytes → Nat
  | [] => 0
  | d :: ds => d + 256 * unDigits ds

/-- Sign-then-magnitude integer field, magnitude in base-256 digits. -/
def intEnc (i : Int) : Bytes :=
  (if i < 0 then 1 else 0) :: bEnc (digitsF (i.natAbs + 1) i.natAbs)

/-- Modelled from the spec: the serialized token payload (`json.Marshal` of
`models.Token`), an out-of-scope collaborator, modelled as an injective
field-by-field encoding. -/
def serializeToken (t : TokenInfo) : Bytes :=
  bEnc t.clientID ++ (bEnc t.userID ++ (bEnc t.code ++ (bEnc t.access ++
    (bEnc t.refresh ++ (intEnc t.codeCreateAt ++ (intEnc t.codeExpiresIn ++
    (intEnc t.accessCreateAt ++ (intEnc t.accessExpiresIn ++
    (intEnc t.refreshCreateAt ++ intEnc t.refreshExpiresIn)))))))))

/-- Decoder for `natEnc`. -/
def natDec : Bytes → Option (Nat × Bytes)
  | 0 :: r => some (0, r)
  | 1 :: r =>
    match natDec r with
    | some (n, r') => some (n + 1, r')
    | none => none
  | _ => none

/-- Decoder for `bEnc`. -/
def bDec (s : Bytes) : Option (Bytes × Bytes) :=
  match natDec s with
  | some (n, r) => if n ≤ r.length then some (r.take n, r.drop n) else none
  | none => none

/-- Decoder for `intEnc`. -/
def intDec : Bytes → Option (Int × Bytes)
  | 0 :: r =>
    match bDec r with
    | some (ds, r') => some ((unDigits ds : Int), r')
    | none => none
  | 1 :: r =>
    match bDec r with
    | some (ds, r') => some (-(unDigits ds : Int), r')
    | none => none
  | _ => none

/-- Modelled from the spec: `json.Unmarshal` into `models.Token`, the exact
inverse of `serializeToken`; fails on anything else (in particular on `nil`,
as `json.Unmarshal(nil, ...)` does). -/
def deserializeToken (s : Bytes) : Option TokenInfo := do
  let (cid, s) ← bDec s
  let (uid, s) ← bDec s
  let (code, s) ← bDec s
  let (access, s) ← bDec s
  let (refresh, s) ← bDec s
  let (cca, s) ← intDec s
  let (cexp, s) ← intDec s
  let (aca, s) ← intDec s
  let (aexp, s) ← intDec s
  let (rca, s) ← intDec s
  let (rexp, s) ← intDec s
  if s = [] then
    some ⟨cid, uid, code, access, refresh, cca, cexp, aca, aexp, rca, rexp⟩
  else none

/-! ## A binary64 model for `Duration.Seconds`

`Create` decides the access-lifetime clamp with
`aexp.Seconds() > rexp.Seconds()`, where `Seconds` returns a `float64`:
`sec := d / 1e9` (Go truncated division), `nsec := d % 1e9`, result
`float64(sec) + float64(nsec)/1e9`.  We model binary64 values as exact
fractions and round-to-nearest-even at 53-bit precision.  The exponent
search covers `2^-40 .. 2^40`, which contains every nonzero magnitude these
expressions can take for int64 nanosecond durations (no overflow or
subnormals arise there). -/

/-- An exact fraction `num / den` standing for a binary64 value. -/
structure Frk where
  num : Int
  den : Nat
deriving DecidableEq

/-- Whether `2 ^ j ≤ |q|`. -/
def pow2le (j : Int) (q : Frk) : Bool :=
  if 0 ≤ j then 2 ^ j.toNat * q.den ≤ q.num.natAbs
  else q.den ≤ q.num.natAbs * 2 ^ (-j).toNat

/-- Binary exponent of `q` (largest `e` with `2 ^ e ≤ |q|`), searched over
`[-40, 40]`; by construction the result is always at most `40`. -/
def f64exp (q : Frk) : Int :=
  -40 + (((List.range 80).filter (fun i => pow2le (-39 + (i : Int)) q)).length : Int)

/-- Round `num / den` to the nearest integer, ties to even. -/
def roundHalfEven (num : Int) (den : Nat) : Int :=
  let f := Int.fdiv num den
  let r2 := 2 * (num - f * den)
  if r2 < den then f else if r2 > den then f + 1
  else if f % 2 = 0 then f else f + 1

/-- Round an exact fraction to binary64 (53-bit significand, round to
nearest, ties to even). -/
def fl (q : Frk) : Frk :=
  if q.num = 0 then ⟨0, 1⟩
  else
    let p := (52 - f64exp q).toNat
    ⟨roundHalfEven (q.num * 2 ^ p) q.den, 2 ^ p⟩

/-- Exact sum of two fractions. -/
def fradd (a b : Frk) : Frk := ⟨a.num * b.den + b.num * a.den, a.den * b.den⟩

/-- Exact comparison `a > b` of two fraction values (binary64 comparison on
the rounded values). -/
def frkGt (a b : Frk) : Bool := b.num * (a.den : Int) < a.num * (b.den : Int)

/-- Go's `Duration.Seconds()` for `d` nanoseconds, as the exact value of the
resulting binary64. -/
def goSeconds (d : Int) : Frk :=
  let sec := Int.tdiv d 1000000000
  let nsec := Int.tmod d 1000000000
  let fn := fl ⟨nsec, 1⟩
  fl (fradd (fl ⟨sec, 1⟩) (fl ⟨fn.num, fn.den * 1000000000⟩))

/-- The comparison `a.Seconds() > r.Seconds()` from line 109 of `Create`. -/
def secondsGt (a r : Int) : Bool := frkGt (goSeconds a) (goSeconds r)

/-- Lines 104-111 of `Create`: the local access-lifetime computation,
clamping `aexp` to `rexp` when `aexp.Seconds() > rexp.Seconds()`. -/
def computedAexp (info : TokenInfo) (ct : Int) : Int :=
  let aexp := info.accessExpiresIn
  if info.refresh ≠ [] then
    let rexp := info.refreshCreateAt + info.refreshExpiresIn - ct
    if secondsGt aexp rexp then rexp else aexp
  else aexp

/-! ## The store operations -/

/-- `createTtl`: writes `formatted(now + ttl) -> key` into the TTL bucket;
`now` is the `time.Now()` reading made inside the call. -/
def createTtl (bucket : Bucket) (key : Bytes) (ttl : Int) (now : Int) :
    Except String Bucket :=
  bputE bucket (fmtRFC3339Nano (now + ttl)) key

/-- The body of the `db.Update` closure in `Create` (lines 88-140): the
mutated buckets plus the closure's returned error.  The source returns `nil`
rather than `err` on the failure paths at lines 116, 124, 129 and 136, which
is reproduced here.  `ct` is the `time.Now()` from line 82; `tA` and `tB` are
the `time.Now()` readings inside the first and second `createTtl` call of the
taken branch. -/
def createFn (db : DB) (info : TokenInfo) (basicID : Bytes) (ct tA tB : Int) :
    DB × Option String :=
  let jv := serializeToken info
  if info.code ≠ [] then
    match bputE db.main info.code jv with
    | .error e => (db, some e)
    | .ok bucket' =>
      match createTtl db.ttl info.code info.codeExpiresIn tA with
      | .error e => (⟨bucket', db.ttl⟩, some e)
      | .ok ttl' => (⟨bucket', ttl'⟩, none)
  else
    let aexp := info.accessExpiresIn
    let rexp := aexp
    if info.refresh ≠ [] then
      let rexp := info.refreshCreateAt + info.refreshExpiresIn - ct
      let _aexp := if secondsGt aexp rexp then rexp else aexp
      match bputE db.main info.refresh basicID with
      | .error _ => (db, none)
      | .ok bucket' =>
        match createTtl db.ttl info.refresh rexp tA with
        | .error e => (⟨bucket', db.ttl⟩, some e)
        | .ok ttl' => (⟨bucket', ttl'⟩, none)
    else
      match bputE db.main basicID jv with
      | .error _ => (db, none)
      | .ok b1 =>
        match createTtl db.ttl basicID rexp tA with
        | .error _ => (⟨b1, db.ttl⟩, none)
        | .ok t1 =>
          match bputE b1 info.access basicID with
          | .error _ => (⟨b1, t1⟩, none)
          | .ok b2 =>
            match createTtl t1 info.access aexp tB with
            | .error e => (⟨b2, t1⟩, some e)
            | .ok t2 => (⟨b2, t2⟩, none)

/-- `ts.Create`: run the transaction; a non-nil return from the closure rolls
every mutation back, a nil return commits them.  `basicID` stands for the
freshly generated `uuid.NewV4().Bytes()`. -/
def Create (db : DB) (info : TokenInfo) (basicID : Bytes) (ct tA tB : Int) :
    DB × Option String :=
  match createFn db info basicID ct tA tB with
  | (db', none) => (db', none)
  | (_, some e) => (db, some e)

/-- `ts.getData`: read the primary bucket and unmarshal; `Get` of a missing
key yields `nil`, on which `json.Unmarshal` fails. -/
def getData (db : DB) (key : Bytes) : Except String TokenInfo :=
  match bget db.main key with
  | none => .error "unexpected end of JSON input"
  | some jv =>
    match deserializeToken jv with
    | none => .error "cannot unmarshal"
    | some tm => .ok tm

/-- `ts.getBasicID`: the value stored under `key`, or empty bytes when the
key is absent (`string(nil)` is the empty string). -/
def getBasicID (db : DB) (key : Bytes) : Bytes := (bget db.main key).getD []

/-- `ts.GetByCode`. -/
def GetByCode (db : DB) (code : Bytes) : Except String TokenInfo := getData db code

/-- `ts.GetByAccess`: resolve the indirection, then read the anchor. -/
def GetByAccess (db : DB) (access : Bytes) : Except String TokenInfo :=
  getData db (getBasicID db access)

/-- `ts.GetByRefresh`: resolve the indirection, then read the anchor. -/
def GetByRefresh (db : DB) (refresh : Bytes) : Except String TokenInfo :=
  getData db (getBasicID db refresh)

/-- `ts.remove`: delete the key from the primary bucket only. -/
def remove (db : DB) (key : Bytes) : DB := ⟨bdel db.main key, db.ttl⟩

/-- `ts.RemoveByCode`. -/
def RemoveByCode (db : DB) (code : Bytes) : DB := remove db code

/-- `ts.RemoveByAccess`. -/
def RemoveByAccess (db : DB) (access : Bytes) : DB := remove db access

/-- `ts.RemoveByRefresh`. -/
def RemoveByRefresh (db : DB) (refresh : Bytes) : DB := remove db refresh

/-- `tsc.getExpired`: forward cursor over the TTL bucket from its first
entry, collecting `(value, key)` while `bytes.Compare(k, max) <= 0` with
`max` the formatted `now`; the loop stops at the first larger key, hence
`takeWhile` over the bucket's key order. -/
def getExpired (db : DB) (now : Int) : List Bytes × List Bytes :=
  let mx := fmtRFC3339Nano now
  let collected := db.ttl.takeWhile (fun kv => bleB kv.1 mx)
  (collected.map (fun kv => kv.2), collected.map (fun kv => kv.1))

/-- `tsc.sweep`: a no-op when the scan collects nothing, otherwise one
transaction deleting every collected primary key and every collected TTL
key.  Every return path of the Go function yields a nil error. -/
def sweep (db : DB) (now : Int) : DB :=
  let ke := getExpired db now
  if ke.1 = [] then db
  else ⟨ke.1.foldl bdel db.main, ke.2.foldl bdel db.ttl⟩

/-- Decidable equality of `Except` results, for evaluating the model on
concrete inputs. -/
instance {ε α : Type} [DecidableEq ε] [DecidableEq α] : DecidableEq (Except ε α) :=
  fun a b =>
  match a, b with
  | .ok x, .ok y => decidable_of_iff (x = y) (by simp)
  | .error e, .error f => decidable_of_iff (e = f) (by simp)
  | .ok _, .error _ => isFalse (by simp)
  | .error _, .ok _ => isFalse (by simp)

/-! ## Order lemmas: `bltB` is the lexicographic order on byte strings -/

theorem bltB_iff {a : Bytes} : ∀ {b : Bytes}, bltB a b = true ↔ a < b := by
  induction a with
  | nil =>
    intro b
    cases b with
    | nil =>
      simp only [bltB, Bool.false_eq_true, false_iff]
      exact List.Lex.not_nil_right _ _
    | cons y ys =>
      simp only [bltB, true_iff]
      exact List.nil_lt_cons y ys
  | cons x xs ih =>
    intro b
    cases b with
    | nil =>
      simp only [bltB, Bool.false_eq_true, false_iff]
      exact List.Lex.not_nil_right _ _
    | cons y ys =>
      simp only [bltB]
      split_ifs with h1 h2
      · simp only [true_iff]
        exact List.Lex.rel h1
      · subst h2
        rw [ih]
        exact (List.Lex.cons_iff).symm
      · simp only [Bool.false_eq_true, false_iff]
        intro h
        cases h with
        | cons h' => exact h2 rfl
        | rel h' => exact h1 h'

theorem bleB_iff {a b : Bytes} : bleB a b = true ↔ a ≤ b := by
  have h : bleB a b = true ↔ ¬(bltB b a = true) := by simp [bleB]
  rw [h, bltB_iff, not_lt]

/-! ## Bucket lemmas -/

theorem bget_bput_self (b : Bucket) (k v : Bytes) : bget (bput b k v) k = some v := by
  induction b with
  | nil => simp [bput, bget]
  | cons e rest ih =>
    obtain ⟨k', v'⟩ := e
    simp only [bput]
    split_ifs with h1 h2
    · simp [bget]
    · simp [bget]
    · have hne : k ≠ k' := h2
      simp [bget, hne, ih]

theorem bget_bput_ne (b : Bucket) {k k' : Bytes} (v : Bytes) (h : k' ≠ k) :
    bget (bput b k v) k' = bget b k' := by
  induction b with
  | nil => simp [bput, bget, h]
  | cons e rest ih =>
    obtain ⟨k0, v0⟩ := e
    simp only [bput]
    split_ifs with h1 h2
    · simp [bget, h]
    · subst h2
      simp [bget, h]
    · by_cases hk : k' = k0 <;> simp [bget, hk, ih]

theorem bget_bdel_self (b : Bucket) (k : Bytes) : bget (bdel b k) k = none := by
  induction b with
  | nil => simp [bdel, bget]
  | cons e rest ih =>
    obtain ⟨k0, v0⟩ := e
    simp only [bdel]
    split_ifs with h1
    · exact ih
    · have : k ≠ k0 := fun h => h1 h.symm
      simp [bget, this, ih]

theorem bget_bdel_ne (b : Bucket) {k k' : Bytes} (h : k' ≠ k) :
    bget (bdel b k) k' = bget b k' := by
  induction b with
  | nil => simp [bdel]
  | cons e rest ih =>
    obtain ⟨k0, v0⟩ := e
    simp only [bdel]
    split_ifs with h1
    · subst h1
      simp [bget, h, ih]
    · by_cases hk : k' = k0 <;> simp [bget, hk, ih]

theorem bget_bdel_of_none (b : Bucket) {k k' : Bytes} (h : bget b k' = none) :
    bget (bdel b k) k' = none := by
  by_cases hk : k' = k
  · subst hk; exact bget_bdel_self b k'
  · rw [bget_bdel_ne b hk]; exact h

theorem bputE_ok (b : Bucket) {k v : Bytes} (h1 : k ≠ []) (h2 : k.length ≤ 32768)
    (h3 : v.length ≤ 2147483646) : bputE b k v = .ok (bput b k v) := by
  simp [bputE, h1, Nat.not_lt.mpr h2, Nat.not_lt.mpr h3]

/-! ## Serialization round trip -/

theorem natDec_enc (n : Nat) (r : Bytes) : natDec (natEnc n ++ r) = some (n, r) := by
  induction n with
  | zero => rfl
  | succ n ih =>
    have : natEnc (n + 1) ++ r = 1 :: (natEnc n ++ r) := by
      simp [natEnc, List.replicate_succ]
    rw [this, natDec, ih]

theorem bDec_enc (b r : Bytes) : bDec (bEnc b ++ r) = some (b, r) := by
  have h : bEnc b ++ r = natEnc b.length ++ (b ++ r) := by
    simp [bEnc]
  rw [bDec, h, natDec_enc]
  simp [List.take_left, List.drop_left]

theorem unDigits_digitsF : ∀ (f n : Nat), n < 256 ^ f → unDigits (digitsF f n) = n := by
  intro f
  induction f with
  | zero => intro n h; interval_cases n; rfl
  | succ f ih =>
    intro n h
    rw [digitsF]
    split_ifs with h1
    · simp [unDigits]
    · have hf : f ≠ 0 := by
        rintro rfl
        simp at h
        omega
      have hd : n / 256 < 256 ^ f := by
        rw [Nat.div_lt_iff_lt_mul (by norm_num)]
        calc n < 256 ^ (f + 1) := h
        _ = 256 ^ f * 256 := by ring
      rw [unDigits, ih _ hd]
      omega

theorem natAbs_lt_pow (n : Nat) : n < 256 ^ (n + 1) := by
  calc n < 2 ^ n := Nat.lt_two_pow n
  _ ≤ 256 ^ n := Nat.pow_le_pow_left (by norm_num) n
  _ < 256 ^ (n + 1) := Nat.pow_lt_pow_right (by norm_num) (Nat.lt_succ_self n)

theorem intDec_enc (i : Int) (r : Bytes) : intDec (intEnc i ++ r) = some (i, r) := by
  rw [intEnc]
  split_ifs with h
  · rw [List.cons_append, intDec, bDec_enc]
    have hd := unDigits_digitsF (i.natAbs + 1) i.natAbs (natAbs_lt_pow _)
    simp only [hd]
    have : -(i.natAbs : Int) = i := by omega
    rw [this]
  · rw [List.cons_append, intDec, bDec_enc]
    have hd := unDigits_digitsF (i.natAbs + 1) i.natAbs (natAbs_lt_pow _)
    simp only [hd]
    have : (i.natAbs : Int) = i := by omega
    rw [this]

theorem deserialize_serialize (t : TokenInfo) :
    deserializeToken (serializeToken t) = some t := by
  have hnil : ∀ i : Int, intDec (intEnc i) = some (i, []) := fun i => by
    have := intDec_enc i []
    rwa [List.append_nil] at this
  rw [serializeToken, deserializeToken]
  simp only [bDec_enc, intDec_enc, hnil, Option.bind_eq_bind, Option.some_bind]
  rfl

/-! ## Bounds on the formatted timestamp -/

theorem decDigits_length (f : Nat) : ∀ n, (decDigits f n).length ≤ f := by
  induction f with
  | zero => intro n; simp [decDigits]
  | succ f ih =>
    intro n
    rw [decDigits]
    split_ifs
    · simp
    · have := ih (n / 10)
      simp only [List.length_append, List.length_cons, List.length_nil]
      omega

theorem padDigits_length (w n : Nat) : (padDigits w n).length ≤ w + 30 := by
  have := decDigits_length 30 n
  simp only [padDigits, List.length_append, List.length_replicate]
  omega

theorem dropWhile_len_le (p : Nat → Bool) (l : Bytes) :
    (l.dropWhile p).length ≤ l.length := by
  induction l with
  | nil => simp
  | cons x xs ih =>
    rw [List.dropWhile_cons]
    split_ifs
    · simp only [List.length_cons]
      omega
    · simp

theorem stripZeros_length (b : Bytes) : (stripZeros b).length ≤ b.length := by
  have h := dropWhile_len_le (fun c => c == 48) b.reverse
  simp only [stripZeros, List.length_reverse]
  simpa using h

theorem yearBytes_length (y : Int) : (yearBytes y).length ≤ 35 := by
  rw [yearBytes]
  split_ifs
  · have := padDigits_length 4 y.natAbs
    simp only [List.length_cons]
    omega
  · have := padDigits_length 4 y.toNat
    omega

theorem fmt_length_le (n : Int) : (fmtRFC3339Nano n).length ≤ 32768 := by
  rw [fmtRFC3339Nano]
  have h1 := yearBytes_length (civilFromDays (Int.ediv (Int.ediv n 1000000000) 86400)).1
  have h2 := padDigits_length 2 (civilFromDays (Int.ediv (Int.ediv n 1000000000) 86400)).2.1
  have h3 := padDigits_length 2 (civilFromDays (Int.ediv (Int.ediv n 1000000000) 86400)).2.2
  have h4 := padDigits_length 2 ((Int.emod (Int.ediv n 1000000000) 86400).toNat / 3600)
  have h5 := padDigits_length 2 ((Int.emod (Int.ediv n 1000000000) 86400).toNat % 3600 / 60)
  have h6 := padDigits_length 2 ((Int.emod (Int.ediv n 1000000000) 86400).toNat % 60)
  have h7 : (if (Int.emod n 1000000000).toNat = 0 then ([] : Bytes)
      else 46 :: stripZeros (padDigits 9 (Int.emod n 1000000000).toNat)).length ≤ 40 := by
    split_ifs
    · simp
    · have ha := stripZeros_length (padDigits 9 (Int.emod n 1000000000).toNat)
      have hb := padDigits_length 9 (Int.emod n 1000000000).toNat
      simp only [List.length_cons]
      omega
  simp only [List.length_append, List.length_cons, List.length_nil]
  omega

theorem fmt_ne_nil (n : Int) : fmtRFC3339Nano n ≠ [] := by
  intro h
  have := congrArg List.length h
  rw [fmtRFC3339Nano] at this
  simp only [List.length_append, List.length_cons, List.length_nil] at this
  omega

/-- `createTtl` always succeeds when the stored value (the primary key) fits
bolt's value limit: the formatted timestamp is a valid, small bucket key. -/
theorem createTtl_ok (b : Bucket) {k : Bytes} (h : k.length ≤ 2147483646)
    (ttl now : Int) :
    createTtl b k ttl now = .ok (bput b (fmtRFC3339Nano (now + ttl)) k) :=
  bputE_ok b (fmt_ne_nil _) (fmt_length_le _) h

/-! ## Exactness of the binary64 model on whole-second durations -/

theorem roundHalfEven_int (m : Int) (b : Nat) (hb : b ≠ 0) :
    roundHalfEven (m * b) b = m := by
  have hb' : ((b : Int)) ≠ 0 := Int.natCast_ne_zero.mpr hb
  have hbpos : (0 : Int) < b := by
    have := Nat.pos_of_ne_zero hb
    exact_mod_cast this
  simp only [roundHalfEven, Int.mul_fdiv_cancel _ hb']
  have h0 : m * b - m * b = 0 := by ring
  rw [h0]
  simp [hbpos]

theorem fl_num_zero (b : Nat) : fl ⟨0, b⟩ = ⟨0, 1⟩ := by simp [fl]

theorem fl_int (k : Int) (b : Nat) (hb : b ≠ 0) (hk : k ≠ 0) :
    ∃ p : Nat, fl ⟨k * b, b⟩ = ⟨k * 2 ^ p, 2 ^ p⟩ := by
  refine ⟨(52 - f64exp ⟨k * b, b⟩).toNat, ?_⟩
  have hb' : ((b : Int)) ≠ 0 := Int.natCast_ne_zero.mpr hb
  have hnum : k * (b : Int) ≠ 0 := mul_ne_zero hk hb'
  rw [fl, if_neg hnum]
  have hre : k * (b : Int) * 2 ^ (52 - f64exp ⟨k * ↑b, b⟩).toNat
      = (k * 2 ^ (52 - f64exp ⟨k * ↑b, b⟩).toNat) * b := by ring
  simp only []
  rw [hre, roundHalfEven_int _ _ hb]

theorem goSeconds_whole (k : Int) :
    ∃ p : Nat, goSeconds (k * 1000000000) = ⟨k * 2 ^ p, 2 ^ p⟩ := by
  have hsec : Int.tdiv (k * 1000000000) 1000000000 = k :=
    Int.mul_tdiv_cancel k (by norm_num)
  have hnsec : Int.tmod (k * 1000000000) 1000000000 = 0 :=
    Int.mul_tmod_left k 1000000000
  by_cases hk : k = 0
  · subst hk
    refine ⟨0, ?_⟩
    simp only [goSeconds, zero_mul, pow_zero]
    rfl
  · obtain ⟨p1, hp1⟩ : ∃ p : Nat, fl ⟨k, 1⟩ = ⟨k * 2 ^ p, 2 ^ p⟩ := by
      have h := fl_int k 1 (by norm_num) hk
      simpa using h
    rw [goSeconds, hsec, hnsec]
    simp only [fl_num_zero]
    rw [hp1]
    have hadd : fradd ⟨k * 2 ^ p1, 2 ^ p1⟩ ⟨0, 1⟩ = ⟨k * 2 ^ p1, 2 ^ p1⟩ := by
      simp [fradd]
    rw [hadd]
    have h2 := fl_int k (2 ^ p1) (by positivity) hk
    simpa using h2

theorem secondsGt_whole (a r : Int) :
    secondsGt (a * 1000000000) (r * 1000000000) = decide (r < a) := by
  obtain ⟨pa, hpa⟩ := goSeconds_whole a
  obtain ⟨pr, hpr⟩ := goSeconds_whole r
  rw [secondsGt, hpa, hpr, frkGt]
  rw [decide_eq_decide]
  have hpos : (0 : Int) < 2 ^ pa * 2 ^ pr := by positivity
  have h1 : r * 2 ^ pr * ((2 : Int) ^ pa) = r * (2 ^ pa * 2 ^ pr) := by ring
  have h2 : a * 2 ^ pa * ((2 : Int) ^ pr) = a * (2 ^ pa * 2 ^ pr) := by ring
  push_cast
  rw [h1, h2, mul_lt_mul_right hpos]

/-! ## Sweep lemmas -/

theorem bltB_trans {a b c : Bytes} (h1 : bltB a b = true) (h2 : bltB b c = true) :
    bltB a c = true := by
  rw [bltB_iff] at *
  exact lt_trans h1 h2

theorem bsorted_cons {e : Bytes × Bytes} {l : Bucket} (h : bsorted (e :: l) = true) :
    bsorted l = true ∧ ∀ x ∈ l, bltB e.1 x.1 = true := by
  induction l generalizing e with
  | nil => simp [bsorted]
  | cons f rest ih =>
    rw [bsorted, Bool.and_eq_true] at h
    obtain ⟨hef, hrest⟩ := h
    obtain ⟨hr, hall⟩ := ih hrest
    refine ⟨hrest, ?_⟩
    intro x hx
    rcases List.mem_cons.mp hx with rfl | hx'
    · exact hef
    · exact bltB_trans hef (hall x hx')

theorem bdel_of_not_mem {l : Bucket} {k : Bytes} (h : ∀ x ∈ l, x.1 ≠ k) :
    bdel l k = l := by
  induction l with
  | nil => rfl
  | cons e rest ih =>
    rw [bdel, if_neg (h e (List.mem_cons_self e rest))]
    rw [ih (fun x hx => h x (List.mem_cons_of_mem e hx))]

theorem bget_foldl_bdel_none {ks : List Bytes} {b : Bucket} {k : Bytes}
    (h : bget b k = none) : bget (ks.foldl bdel b) k = none := by
  induction ks generalizing b with
  | nil => exact h
  | cons k0 rest ih => exact ih (bget_bdel_of_none _ h)

theorem bget_foldl_bdel_mem {ks : List Bytes} {b : Bucket} {k : Bytes}
    (h : k ∈ ks) : bget (ks.foldl bdel b) k = none := by
  induction ks generalizing b with
  | nil => simp at h
  | cons k0 rest ih =>
    rw [List.foldl_cons]
    rcases List.mem_cons.mp h with rfl | hmem
    · exact bget_foldl_bdel_none (bget_bdel_self b k)
    · exact ih hmem

theorem mem_takeWhile_of_sorted {l : Bucket} {mx : Bytes} {e : Bytes × Bytes}
    (hs : bsorted l = true) (hmem : e ∈ l) (hle : bleB e.1 mx = true) :
    e ∈ l.takeWhile (fun kv => bleB kv.1 mx) := by
  induction l with
  | nil => simp at hmem
  | cons f rest ih =>
    obtain ⟨hsr, hall⟩ := bsorted_cons hs
    rw [List.takeWhile_cons]
    by_cases hf : bleB f.1 mx = true
    · rw [if_pos hf]
      rcases List.mem_cons.mp hmem with rfl | h'
      · exact List.mem_cons_self _ _
      · exact List.mem_cons_of_mem _ (ih hsr h')
    · exfalso
      rw [bleB_iff] at hle
      have hfgt : mx < f.1 := by
        have := (not_congr bleB_iff).mp hf
        exact not_le.mp this
      rcases List.mem_cons.mp hmem with rfl | h'
      · exact absurd hle (not_le.mpr hfgt)
      · have hlt : bltB f.1 e.1 = true := hall e h'
        rw [bltB_iff] at hlt
        exact absurd (le_trans (le_of_lt hlt) hle) (not_le.mpr hfgt)

theorem foldl_bdel_takeWhile (p : Bytes × Bytes → Bool) :
    ∀ {l : Bucket}, bsorted l = true →
    (((l.takeWhile p).map (fun kv => kv.1)).foldl bdel l) = l.dropWhile p := by
  intro l
  induction l with
  | nil => intro _; rfl
  | cons e rest ih =>
    intro hs
    obtain ⟨hsr, hall⟩ := bsorted_cons hs
    rw [List.takeWhile_cons, List.dropWhile_cons]
    by_cases hp : p e = true
    · rw [if_pos hp, if_pos hp, List.map_cons, List.foldl_cons]
      have h1 : bdel (e :: rest) e.1 = rest := by
        rw [bdel, if_pos rfl]
        refine bdel_of_not_mem ?_
        intro x hx he
        have := hall x hx
        rw [he, bltB_iff] at this
        exact lt_irrefl _ this
      rw [h1, ih hsr]
    · rw [if_neg hp, if_neg hp, List.map_nil, List.foldl_nil]

theorem takeWhile_dropWhile_nil (p : Bytes × Bytes → Bool) (l : Bucket) :
    (l.dropWhile p).takeWhile p = [] := by
  induction l with
  | nil => rfl
  | cons e rest ih =>
    rw [List.dropWhile_cons]
    split_ifs with h
    · exact ih
    · rw [List.takeWhile_cons, if_neg h]

/-! ## The claims -/

/-- C1: the claim asserts the TTL-key formatting is order-preserving, but the
code formats with `time.RFC3339Nano`, which strips trailing zeros of the
fractional seconds.  At the failing input below, the earlier instant
2026-01-01T00:00:00.100Z (epoch ns 1767225600100000000) formats to
`...00.1Z`, which sorts strictly AFTER the later instant's `...00.15Z` in
byte-lexicographic order; the third conjunct shows these are exactly the
keys `createTtl` writes, so the `getExpired` cursor scan stops before
genuinely expired entries. -/
theorem createTtl_format_not_order_preserving :
    (1767225600100000000 : Int) < 1767225600150000000 ∧
    bltB (fmtRFC3339Nano 1767225600150000000) (fmtRFC3339Nano 1767225600100000000)
      = true ∧
    createTtl [] [7] 100000000 1767225600000000000 =
      .ok [(fmtRFC3339Nano 1767225600100000000, [7])] := by
  refine ⟨by decide, by decide, by decide⟩

/-- C2: the claim asserts any failed write inside `Create` aborts the
transaction and is returned; but the closure returns `nil` on the failure
paths of the refresh and access branches.  At the failing input (an
access-only record whose access token is empty) the `bucket.Put` of the
access key fails with `ErrKeyRequired`, yet `Create` returns nil and the
transaction commits partial state: the anchor record and its TTL entry are
persisted while the access mapping and its TTL entry are not. -/
theorem create_swallows_write_error :
    (Create ⟨[], []⟩ ⟨[], [], [], [], [], 0, 0, 0, 0, 0, 0⟩ [1, 2] 0 0 0).2 = none ∧
    (Create ⟨[], []⟩ ⟨[], [], [], [], [], 0, 0, 0, 0, 0, 0⟩ [1, 2] 0 0 0).1.main.length
      = 1 ∧
    bget (Create ⟨[], []⟩ ⟨[], [], [], [], [], 0, 0, 0, 0, 0, 0⟩ [1, 2] 0 0 0).1.main []
      = none ∧
    (Create ⟨[], []⟩ ⟨[], [], [], [], [], 0, 0, 0, 0, 0, 0⟩ [1, 2] 0 0 0).1.ttl.length
      = 1 := by
  refine ⟨by decide, by decide, by decide, by decide⟩

/-- C7: `RemoveByCode`/`RemoveByAccess`/`RemoveByRefresh` delete only the
primary-bucket entry under the exact given key: the TTL bucket is untouched,
every other primary key keeps its value (no indirection is followed, so the
anchor and sibling pointers survive), and all three methods are the same
single-key deletion. -/
theorem remove_frame_effect (db : DB) (k k' : Bytes) (h : k' ≠ k) :
    (RemoveByCode db k).ttl = db.ttl ∧
    bget (RemoveByCode db k).main k = none ∧
    bget (RemoveByCode db k).main k' = bget db.main k' ∧
    RemoveByAccess db k = RemoveByCode db k ∧
    RemoveByRefresh db k = RemoveByCode db k :=
  ⟨rfl, bget_bdel_self _ _, bget_bdel_ne _ h, rfl, rfl⟩

/-- C7 witness: the frame property at a concrete store and keys. -/
theorem remove_frame_effect_witness :
    (([4] : Bytes) ≠ [5]) ∧
    ((RemoveByCode ⟨[([4], [1]), ([5], [2])], [([3], [5])]⟩ [5]).ttl = [([3], [5])] ∧
      bget (RemoveByCode ⟨[([4], [1]), ([5], [2])], [([3], [5])]⟩ [5]).main [5] = none ∧
      bget (RemoveByCode ⟨[([4], [1]), ([5], [2])], [([3], [5])]⟩ [5]).main [4]
        = bget [([4], [1]), ([5], [2])] [4] ∧
      RemoveByAccess ⟨[([4], [1]), ([5], [2])], [([3], [5])]⟩ [5]
        = RemoveByCode ⟨[([4], [1]), ([5], [2])], [([3], [5])]⟩ [5] ∧
      RemoveByRefresh ⟨[([4], [1]), ([5], [2])], [([3], [5])]⟩ [5]
        = RemoveByCode ⟨[([4], [1]), ([5], [2])], [([3], [5])]⟩ [5]) :=
  ⟨by decide, remove_frame_effect ⟨[([4], [1]), ([5], [2])], [([3], [5])]⟩ [5] [4]
    (by decide)⟩

/-- C3: for a record with empty code and non-empty refresh token, `Create`
writes exactly two entries — `refresh -> basicID` in the primary bucket and
one TTL entry keyed by the formatted refresh expiry
(`refreshCreateAt + refreshExpiresIn`, since `rexp` is recomputed against
`ct` and `createTtl` adds its own clock reading, here equal to `ct`) with
the refresh key as value — and returns nil without persisting the anchor
record or the access mapping. -/
theorem create_refresh_branch_two_writes (db : DB) (info : TokenInfo)
    (basicID : Bytes) (ct tB : Int)
    (hcode : info.code = [])
    (href : info.refresh ≠ [])
    (hlen : info.refresh.length ≤ 32768)
    (hbid : basicID.length ≤ 2147483646) :
    Create db info basicID ct ct tB =
      (⟨bput db.main info.refresh basicID,
        bput db.ttl (fmtRFC3339Nano (info.refreshCreateAt + info.refreshExpiresIn))
          info.refresh⟩, none) := by
  have h1 : bputE db.main info.refresh basicID
      = .ok (bput db.main info.refresh basicID) :=
    bputE_ok _ href hlen hbid
  have h2 : createTtl db.ttl info.refresh
        (info.refreshCreateAt + info.refreshExpiresIn - ct) ct
      = .ok (bput db.ttl
          (fmtRFC3339Nano (ct + (info.refreshCreateAt + info.refreshExpiresIn - ct)))
          info.refresh) :=
    createTtl_ok _ (le_trans hlen (by norm_num)) _ _
  have h3 : ct + (info.refreshCreateAt + info.refreshExpiresIn - ct)
      = info.refreshCreateAt + info.refreshExpiresIn := by ring
  rw [h3] at h2
  rw [Create, createFn]
  simp only [hcode, ne_eq, not_true_eq_false, if_false, href, not_false_eq_true,
    if_true, h1, h2]

/-- C3 witness: the refresh-branch write pattern at a concrete record. -/
theorem create_refresh_branch_two_writes_witness :
    ((⟨[], [], [], [5], [6], 0, 0, 0, 0, 50, 7000000000⟩ : TokenInfo).code = [] ∧
     (⟨[], [], [], [5], [6], 0, 0, 0, 0, 50, 7000000000⟩ : TokenInfo).refresh ≠ []) ∧
    Create ⟨[], []⟩ ⟨[], [], [], [5], [6], 0, 0, 0, 0, 50, 7000000000⟩ [9] 100 100 0 =
      (⟨bput [] [6] [9],
        bput [] (fmtRFC3339Nano ((50 : Int) + 7000000000)) [6]⟩, none) :=
  ⟨⟨by decide, by decide⟩,
    create_refresh_branch_two_writes ⟨[], []⟩
      ⟨[], [], [], [5], [6], 0, 0, 0, 0, 50, 7000000000⟩ [9] 100 0
      (by decide) (by decide) (by decide) (by decide)⟩

/-- C9: the claim asserts that two `createTtl` calls producing the same
formatted timestamp leave both entries in the TTL bucket; but a bolt bucket
is a map on keys, so at the concrete input below (two distinct primary keys,
identical expiry) the second `Put` overwrites the first: one entry remains
and it maps the second key. -/
theorem createTtl_collision_overwrites :
    createTtl [] [1] 5000000000 100 = .ok [(fmtRFC3339Nano 5000000100, [1])] ∧
    createTtl [(fmtRFC3339Nano 5000000100, [1])] [2] 5000000000 100 =
      .ok [(fmtRFC3339Nano 5000000100, [2])] := by
  refine ⟨by decide, by decide⟩

/-- C9 (amended): on a timestamp collision the TTL index keeps a single
entry under that timestamp and the later write wins: after the first
`createTtl` put the timestamp maps `k1`, and the second `createTtl` replaces
it so the timestamp maps `k2`. -/
theorem createTtl_collision_last_writer_wins (b b' : Bucket) (k1 k2 : Bytes)
    (ttl now : Int)
    (h1 : createTtl b k1 ttl now = .ok b')
    (h2 : k2.length ≤ 2147483646) :
    bget b' (fmtRFC3339Nano (now + ttl)) = some k1 ∧
    createTtl b' k2 ttl now = .ok (bput b' (fmtRFC3339Nano (now + ttl)) k2) ∧
    bget (bput b' (fmtRFC3339Nano (now + ttl)) k2) (fmtRFC3339Nano (now + ttl))
      = some k2 := by
  have hb' : b' = bput b (fmtRFC3339Nano (now + ttl)) k1 := by
    rw [createTtl, bputE] at h1
    split_ifs at h1
    simp_all
  refine ⟨?_, createTtl_ok b' h2 ttl now, bget_bput_self _ _ _⟩
  rw [hb']
  exact bget_bput_self _ _ _

/-- C9 witness: last-writer-wins at a concrete collision. -/
theorem createTtl_collision_last_writer_wins_witness :
    (createTtl [] [1] 5000000000 100 = .ok [(fmtRFC3339Nano (100 + 5000000000), [1])] ∧
      ([2] : Bytes).length ≤ 2147483646) ∧
    (bget [(fmtRFC3339Nano ((100 : Int) + 5000000000), [1])]
        (fmtRFC3339Nano ((100 : Int) + 5000000000)) = some [1] ∧
      createTtl [(fmtRFC3339Nano ((100 : Int) + 5000000000), [1])] [2] 5000000000 100 =
        .ok (bput [(fmtRFC3339Nano ((100 : Int) + 5000000000), [1])]
          (fmtRFC3339Nano ((100 : Int) + 5000000000)) [2]) ∧
      bget (bput [(fmtRFC3339Nano ((100 : Int) + 5000000000), [1])]
          (fmtRFC3339Nano ((100 : Int) + 5000000000)) [2])
        (fmtRFC3339Nano ((100 : Int) + 5000000000)) = some [2]) :=
  ⟨⟨by decide, by decide⟩,
    createTtl_collision_last_writer_wins []
      [(fmtRFC3339Nano ((100 : Int) + 5000000000), [1])] [1] [2] 5000000000 100
      (by decide) (by decide)⟩

/-- C4: for a record with only an access token (empty code, empty refresh),
`GetByAccess` immediately after a successful `Create` returns the record
deep-equal to the input: the access key resolves to the fresh anchor
identifier, the anchor holds the serialized record, and deserialization is
the exact inverse of serialization. -/
theorem getByAccess_roundtrip_after_create (db : DB) (info : TokenInfo)
    (basicID : Bytes) (ct tA tB : Int)
    (hcode : info.code = [])
    (href : info.refresh = [])
    (hacc : info.access ≠ [])
    (halen : info.access.length ≤ 32768)
    (hbid : basicID ≠ [])
    (hbidlen : basicID.length ≤ 32768)
    (hserlen : (serializeToken info).length ≤ 2147483646)
    (hne : info.access ≠ basicID) :
    (Create db info basicID ct tA tB).2 = none ∧
    GetByAccess (Create db info basicID ct tA tB).1 info.access = .ok info := by
  have h1 : bputE db.main basicID (serializeToken info)
      = .ok (bput db.main basicID (serializeToken info)) :=
    bputE_ok _ hbid hbidlen hserlen
  have h2 := createTtl_ok db.ttl (k := basicID)
    (le_trans hbidlen (by norm_num)) info.accessExpiresIn tA
  have h3 : bputE (bput db.main basicID (serializeToken info)) info.access basicID
      = .ok (bput (bput db.main basicID (serializeToken info)) info.access basicID) :=
    bputE_ok _ hacc halen (le_trans hbidlen (by norm_num))
  have h4 := createTtl_ok
    (bput db.ttl (fmtRFC3339Nano (tA + info.accessExpiresIn)) basicID)
    (k := info.access) (le_trans halen (by norm_num)) info.accessExpiresIn tB
  have hcr : Create db info basicID ct tA tB =
      (⟨bput (bput db.main basicID (serializeToken info)) info.access basicID,
        bput (bput db.ttl (fmtRFC3339Nano (tA + info.accessExpiresIn)) basicID)
          (fmtRFC3339Nano (tB + info.accessExpiresIn)) info.access⟩, none) := by
    rw [Create, createFn]
    simp only [hcode, href, ne_eq, not_true_eq_false, if_false, h1, h2, h3, h4]
  rw [hcr]
  refine ⟨rfl, ?_⟩
  rw [GetByAccess, getBasicID]
  simp only []
  rw [bget_bput_self]
  simp only [Option.getD_some]
  rw [getData]
  simp only []
  rw [bget_bput_ne _ _ (Ne.symm hne), bget_bput_self]
  simp only [deserialize_serialize]

/-- C4 witness: the round trip at a concrete access-only record. -/
theorem getByAccess_roundtrip_after_create_witness :
    ((⟨[1], [2], [], [5], [], 0, 0, 0, 2000000000, 0, 0⟩ : TokenInfo).code = [] ∧
     (⟨[1], [2], [], [5], [], 0, 0, 0, 2000000000, 0, 0⟩ : TokenInfo).refresh = [] ∧
     (⟨[1], [2], [], [5], [], 0, 0, 0, 2000000000, 0, 0⟩ : TokenInfo).access ≠ [] ∧
     ([9] : Bytes) ≠ [] ∧
     (serializeToken ⟨[1], [2], [], [5], [], 0, 0, 0, 2000000000, 0, 0⟩).length
       ≤ 2147483646 ∧
     (⟨[1], [2], [], [5], [], 0, 0, 0, 2000000000, 0, 0⟩ : TokenInfo).access ≠ [9]) ∧
    ((Create ⟨[], []⟩ ⟨[1], [2], [], [5], [], 0, 0, 0, 2000000000, 0, 0⟩ [9] 0 0 0).2
        = none ∧
      GetByAccess
        (Create ⟨[], []⟩ ⟨[1], [2], [], [5], [], 0, 0, 0, 2000000000, 0, 0⟩ [9] 0 0 0).1
        [5] = .ok ⟨[1], [2], [], [5], [], 0, 0, 0, 2000000000, 0, 0⟩) :=
  ⟨⟨by decide, by decide, by decide, by decide, by decide, by decide⟩,
    getByAccess_roundtrip_after_create ⟨[], []⟩
      ⟨[1], [2], [], [5], [], 0, 0, 0, 2000000000, 0, 0⟩ [9] 0 0 0
      (by decide) (by decide) (by decide) (by decide) (by decide) (by decide)
      (by decide) (by decide)⟩

/-- C5: for a record carrying a non-empty authorization code, created in a
store where the record's access and refresh tokens (and the empty key) are
unbound, `GetByCode` returns the stored record while `GetByAccess` and
`GetByRefresh` fail: the code branch writes only the code entry and its TTL
entry and never creates an anchor, so the indirection lookups miss. -/
theorem code_branch_lookup_behaviour (db : DB) (info : TokenInfo)
    (basicID : Bytes) (ct tA tB : Int)
    (hcode : info.code ≠ [])
    (hclen : info.code.length ≤ 32768)
    (hserlen : (serializeToken info).length ≤ 2147483646)
    (hane : info.access ≠ info.code)
    (hrne : info.refresh ≠ info.code)
    (hacc0 : bget db.main info.access = none)
    (hrf0 : bget db.main info.refresh = none)
    (hnil0 : bget db.main [] = none) :
    (Create db info basicID ct tA tB).2 = none ∧
    GetByCode (Create db info basicID ct tA tB).1 info.code = .ok info ∧
    (GetByAccess (Create db info basicID ct tA tB).1 info.access).toOption = none ∧
    (GetByRefresh (Create db info basicID ct tA tB).1 info.refresh).toOption = none := by
  have h1 : bputE db.main info.code (serializeToken info)
      = .ok (bput db.main info.code (serializeToken info)) :=
    bputE_ok _ hcode hclen hserlen
  have h2 := createTtl_ok db.ttl (k := info.code)
    (le_trans hclen (by norm_num)) info.codeExpiresIn tA
  have hcr : Create db info basicID ct tA tB =
      (⟨bput db.main info.code (serializeToken info),
        bput db.ttl (fmtRFC3339Nano (tA + info.codeExpiresIn)) info.code⟩, none) := by
    rw [Create, createFn]
    simp only [hcode, ne_eq, not_false_eq_true, if_true, h1, h2]
  rw [hcr]
  have hnilc : ([] : Bytes) ≠ info.code := fun h => hcode h.symm
  refine ⟨rfl, ?_, ?_, ?_⟩
  · rw [GetByCode, getData]
    simp only []
    rw [bget_bput_self]
    simp only [deserialize_serialize]
  · rw [GetByAccess, getBasicID]
    simp only []
    rw [bget_bput_ne _ _ hane, hacc0]
    simp only [Option.getD_none]
    rw [getData]
    simp only []
    rw [bget_bput_ne _ _ hnilc, hnil0]
    rfl
  · rw [GetByRefresh, getBasicID]
    simp only []
    rw [bget_bput_ne _ _ hrne, hrf0]
    simp only [Option.getD_none]
    rw [getData]
    simp only []
    rw [bget_bput_ne _ _ hnilc, hnil0]
    rfl

/-- C5 witness: the code-branch lookup behaviour at a concrete record in an
empty store. -/
theorem code_branch_lookup_behaviour_witness :
    ((⟨[1], [2], [7], [5], [6], 0, 3000000000, 0, 0, 0, 0⟩ : TokenInfo).code ≠ [] ∧
     (⟨[1], [2], [7], [5], [6], 0, 3000000000, 0, 0, 0, 0⟩ : TokenInfo).access ≠ [7] ∧
     (⟨[1], [2], [7], [5], [6], 0, 3000000000, 0, 0, 0, 0⟩ : TokenInfo).refresh ≠ [7]) ∧
    ((Create ⟨[], []⟩ ⟨[1], [2], [7], [5], [6], 0, 3000000000, 0, 0, 0, 0⟩ [9] 0 0 0).2
        = none ∧
      GetByCode
        (Create ⟨[], []⟩ ⟨[1], [2], [7], [5], [6], 0, 3000000000, 0, 0, 0, 0⟩ [9] 0 0 0).1
        [7] = .ok ⟨[1], [2], [7], [5], [6], 0, 3000000000, 0, 0, 0, 0⟩ ∧
      (GetByAccess
        (Create ⟨[], []⟩ ⟨[1], [2], [7], [5], [6], 0, 3000000000, 0, 0, 0, 0⟩ [9] 0 0 0).1
        [5]).toOption = none ∧
      (GetByRefresh
        (Create ⟨[], []⟩ ⟨[1], [2], [7], [5], [6], 0, 3000000000, 0, 0, 0, 0⟩ [9] 0 0 0).1
        [6]).toOption = none) :=
  ⟨⟨by decide, by decide, by decide⟩,
    code_branch_lookup_behaviour ⟨[], []⟩
      ⟨[1], [2], [7], [5], [6], 0, 3000000000, 0, 0, 0, 0⟩ [9] 0 0 0
      (by decide) (by decide) (by decide) (by decide) (by decide) rfl rfl rfl⟩

/-- C6: the claim asserts that with a refresh token present the (stored)
access expiry equals `min(accessTTL, rexp)`; at the concrete input below
(accessTTL = 2^24 s + 1 ns, remaining refresh lifetime exactly 2^24 s) the
two durations round to the same float64 `Seconds()` value, so the
`aexp.Seconds() > rexp.Seconds()` test is false and the computed aexp stays
2^24 s + 1 ns, strictly above the minimum.  (Independently, the refresh
branch stores no access expiry at all because of its early return — see
C3.) -/
theorem computedAexp_float_tie_not_min :
    computedAexp ⟨[], [], [], [5], [6], 0, 0, 0, 16777216000000001, 0,
      16777216000000000⟩ 0 ≠
      min (16777216000000001 : Int) 16777216000000000 := by decide

/-- C6 (amended): `Create` computes `rexp = refreshCreateAt + refreshTTL -
now` and clamps the local access lifetime by comparing float64 `Seconds()`
values; whenever both durations are whole seconds (so the float64 rounding
is exact) the computed aexp equals `min(accessTTL, rexp)`.  The value is
only the local variable: the refresh branch returns before storing any
access expiry. -/
theorem computedAexp_whole_seconds_min (info : TokenInfo) (ct a r : Int)
    (href : info.refresh ≠ [])
    (ha : info.accessExpiresIn = a * 1000000000)
    (hr : info.refreshCreateAt + info.refreshExpiresIn - ct = r * 1000000000) :
    computedAexp info ct =
      min info.accessExpiresIn (info.refreshCreateAt + info.refreshExpiresIn - ct) := by
  rw [computedAexp]
  simp only [href, ne_eq, not_false_eq_true, if_true]
  rw [ha, hr, secondsGt_whole]
  by_cases hlt : r < a
  · rw [if_pos (decide_eq_true hlt)]
    omega
  · rw [if_neg (fun hc => hlt (of_decide_eq_true hc))]
    omega

/-- C6 witness: the exact clamp at whole-second durations (5 s access TTL
against a 3 s remaining refresh lifetime). -/
theorem computedAexp_whole_seconds_min_witness :
    ((⟨[], [], [], [5], [6], 0, 0, 0, 5000000000, 0, 3000000000⟩ : TokenInfo).refresh
        ≠ [] ∧
     (⟨[], [], [], [5], [6], 0, 0, 0, 5000000000, 0, 3000000000⟩ : TokenInfo).accessExpiresIn
        = 5 * 1000000000 ∧
     (⟨[], [], [], [5], [6], 0, 0, 0, 5000000000, 0, 3000000000⟩ : TokenInfo).refreshCreateAt
        + (⟨[], [], [], [5], [6], 0, 0, 0, 5000000000, 0, 3000000000⟩ : TokenInfo).refreshExpiresIn
        - 0 = 3 * 1000000000) ∧
    computedAexp ⟨[], [], [], [5], [6], 0, 0, 0, 5000000000, 0, 3000000000⟩ 0 =
      min (⟨[], [], [], [5], [6], 0, 0, 0, 5000000000, 0, 3000000000⟩ : TokenInfo).accessExpiresIn
        ((⟨[], [], [], [5], [6], 0, 0, 0, 5000000000, 0, 3000000000⟩ : TokenInfo).refreshCreateAt
          + (⟨[], [], [], [5], [6], 0, 0, 0, 5000000000, 0, 3000000000⟩ : TokenInfo).refreshExpiresIn
          - 0) :=
  ⟨⟨by decide, by decide, by decide⟩,
    computedAexp_whole_seconds_min
      ⟨[], [], [], [5], [6], 0, 0, 0, 5000000000, 0, 3000000000⟩ 0 5 3
      (by decide) (by decide) (by decide)⟩

/-- C8: the claim asserts sweeping twice with no intervening writes and a
non-decreasing clock leaves the state unchanged on the second run; but if
the clock advances past an entry's expiry between the runs, the second
sweep collects and deletes it.  Concretely: one TTL entry at t = 1 s, first
sweep at t = 0 (collects nothing), second at t = 1 s (deletes the entry and
its primary record). -/
theorem sweep_twice_advancing_clock_changes_state :
    (0 : Int) ≤ 1000000000 ∧
    sweep (sweep ⟨[([5], [7])], [(fmtRFC3339Nano 1000000000, [5])]⟩ 0) 1000000000 ≠
      sweep ⟨[([5], [7])], [(fmtRFC3339Nano 1000000000, [5])]⟩ 0 := by
  refine ⟨by decide, by decide⟩

/-- C8 (amended): the sweep logic is idempotent at a fixed clock reading:
with no intervening writes, running `sweep` twice with the same `now` leaves
exactly the state of the first run (the first run removed every TTL entry
at or before `now`, so the second scan collects nothing; every code path of
`sweep` returns a nil error). -/
theorem sweep_idempotent_same_clock (db : DB) (now : Int)
    (hs : bsorted db.ttl = true) :
    sweep (sweep db now) now = sweep db now := by
  have hnoop : ∀ d : DB,
      d.ttl.takeWhile (fun kv => bleB kv.1 (fmtRFC3339Nano now)) = [] →
      sweep d now = d := by
    intro d hd
    rw [sweep, getExpired]
    simp only [hd, List.map_nil, if_true]
  by_cases h : db.ttl.takeWhile (fun kv => bleB kv.1 (fmtRFC3339Nano now)) = []
  · rw [hnoop db h, hnoop db h]
  · have hmapne :
        (db.ttl.takeWhile (fun kv => bleB kv.1 (fmtRFC3339Nano now))).map
          (fun kv => kv.2) ≠ [] := by
      simpa using h
    have hstep : sweep db now =
        ⟨((db.ttl.takeWhile (fun kv => bleB kv.1 (fmtRFC3339Nano now))).map
            (fun kv => kv.2)).foldl bdel db.main,
          ((db.ttl.takeWhile (fun kv => bleB kv.1 (fmtRFC3339Nano now))).map
            (fun kv => kv.1)).foldl bdel db.ttl⟩ := by
      rw [sweep, getExpired]
      simp only [if_neg hmapne]
    rw [hstep, foldl_bdel_takeWhile _ hs]
    exact hnoop _ (takeWhile_dropWhile_nil _ db.ttl)

/-- C8 witness: idempotence at a concrete sorted store with one expired and
one live entry. -/
theorem sweep_idempotent_same_clock_witness :
    bsorted [(fmtRFC3339Nano 0, [5]), (fmtRFC3339Nano 2000000000, [6])] = true ∧
    sweep (sweep ⟨[([5], [7]), ([6], [8])],
        [(fmtRFC3339Nano 0, [5]), (fmtRFC3339Nano 2000000000, [6])]⟩ 1000000000)
      1000000000 =
      sweep ⟨[([5], [7]), ([6], [8])],
        [(fmtRFC3339Nano 0, [5]), (fmtRFC3339Nano 2000000000, [6])]⟩ 1000000000 :=
  ⟨by decide,
    sweep_idempotent_same_clock
      ⟨[([5], [7]), ([6], [8])],
        [(fmtRFC3339Nano 0, [5]), (fmtRFC3339Nano 2000000000, [6])]⟩ 1000000000
      (by decide)⟩

/-- C10: sweep deletes by TTL value alone: whenever the (sorted) TTL bucket
contains an entry whose key compares at or before the formatted `now` and
whose value is the primary key `k`, a sweep removes whatever entry currently
sits under `k` in the primary bucket — regardless of when that record was
written and regardless of any other (e.g. later) TTL entries for `k`. -/
theorem sweep_deletes_primary_by_ttl_value (db : DB) (now : Int) (ts k : Bytes)
    (hs : bsorted db.ttl = true)
    (hmem : (ts, k) ∈ db.ttl)
    (hle : bleB ts (fmtRFC3339Nano now) = true) :
    bget (sweep db now).main k = none := by
  have hin : (ts, k) ∈ db.ttl.takeWhile (fun kv => bleB kv.1 (fmtRFC3339Nano now)) :=
    mem_takeWhile_of_sorted hs hmem hle
  have hkk : k ∈ (db.ttl.takeWhile (fun kv => bleB kv.1 (fmtRFC3339Nano now))).map
      (fun kv => kv.2) := List.mem_map_of_mem _ hin
  have hne : (db.ttl.takeWhile (fun kv => bleB kv.1 (fmtRFC3339Nano now))).map
      (fun kv => kv.2) ≠ [] := List.ne_nil_of_mem hkk
  rw [sweep, getExpired]
  simp only [if_neg hne]
  exact bget_foldl_bdel_mem hkk

/-- C10 witness: a record re-created under `[5]` after its (already expired)
TTL entry, with a second, later TTL entry for the same key also present, is
still deleted by the sweep. -/
theorem sweep_deletes_primary_by_ttl_value_witness :
    (bsorted [(fmtRFC3339Nano 0, [5]), (fmtRFC3339Nano 2000000000, [5])] = true ∧
      (fmtRFC3339Nano 0, ([5] : Bytes)) ∈
        [(fmtRFC3339Nano 0, ([5] : Bytes)), (fmtRFC3339Nano 2000000000, [5])] ∧
      bleB (fmtRFC3339Nano 0) (fmtRFC3339Nano 1000000000) = true) ∧
    bget (sweep ⟨[([5], [9])],
        [(fmtRFC3339Nano 0, [5]), (fmtRFC3339Nano 2000000000, [5])]⟩ 1000000000).main
      [5] = none :=
  ⟨⟨by decide, by decide, by decide⟩,
    sweep_deletes_primary_by_ttl_value
      ⟨[([5], [9])], [(fmtRFC3339Nano 0, [5]), (fmtRFC3339Nano 2000000000, [5])]⟩
      1000000000 (fmtRFC3339Nano 0) [5] (by decide) (by decide) (by decide)⟩

end GoOauth2Boltdb
